import Mathlib

/-!
# Bridge message fabric: a shallow embedding in Lean 4

This development embeds the core of the Bridge editor-automation fabric
(message bus / event store, process supervisor, UI surface registry and the
request/response correlation layer of the app SDK) and proves the testable
properties stated in its specification.

Modelling conventions:
* JavaScript strings are modelled as lists of characters (`Str`), so that the
  string operations the source uses (`split`, `join`, `basename`) are plain
  recursive functions amenable to induction.
* A filesystem path is a list of path segments (`FsPath`); `path.join`
  appends segments (dropping empty ones, as the Node.js function does).
* Filesystem side effects of `messageBus.postMessage` are embedded twice, at
  two levels of abstraction: as a trace of filesystem operations
  (`postMessageTrace`, faithful to the exact sequence of `fs` calls), and as
  a state transformer on a per-event store entry (`writeStore`), where the
  timestamped history directory is a list of `(timestamp, payload)` pairs.
* Clock reads (`new Date()`) become explicit numeric parameters.
-/

/-- A JavaScript string, modelled as its list of characters. -/
abbrev Str := List Char

/-- A filesystem path, modelled as its list of path segments. -/
abbrev FsPath := List Str

/-- Lexicographic comparison of strings, as used by `Array.prototype.sort()`
on the history file names in `messageBus.postMessage`. -/
def strLe : Str → Str → Bool
  | [], _ => true
  | _ :: _, [] => false
  | a :: as, b :: bs => if a = b then strLe as bs else decide (a < b)

/-- Node's `path.join(base, ...parts)`: appends the parts as further segments,
ignoring empty parts (Node's `path.join` drops empty-string arguments). -/
def pathJoin (base : FsPath) (parts : List Str) : FsPath :=
  base ++ parts.filter (fun s => s ≠ [])

/-- The function `messageBus.eventToPath`: converts an event name into the filesystem
location of the event, by splitting the name on the `:` delimiter and joining
the segments under the message root (`config.message.path`). -/
def eventToPath (root : FsPath) (event : Str) : FsPath :=
  pathJoin root (event.splitOn ':')

/-- The function `messageBus.pathToEvent`: converts a filesystem path of a signal file
under the message root back into an event name.  `path.relative` strips the
root, `path.dirname` drops the file name (yielding `.` when the relative
path has a single segment, as in Node), and the directory segments are
joined with the `:` delimiter. -/
def pathToEvent (root : FsPath) (fsPath : FsPath) : Str :=
  [':'].intercalate
    (if (fsPath.drop root.length).length ≤ 1 then [['.']]
     else (fsPath.drop root.length).dropLast)

/-- One filesystem side effect performed by the host. -/
inductive FsOp where
  /-- The call `fs.mkdirSync` with the recursive option on `p` -/
  | mkdirp (p : FsPath)
  /-- The call `fs.renameSync(src, dst)` -/
  | rename (src dst : FsPath)
  /-- The call `fs.unlinkSync(p)` -/
  | unlink (p : FsPath)
  /-- The call `fs.writeFileSync(p, content)` -/
  | writeFile (p : FsPath) (content : Str)
  /-- The call `fs.utimesSync(p, time, time)` -/
  | utimes (p : FsPath)
  /-- The create-empty fallback, closing a write-mode open of `p` -/
  | createEmpty (p : FsPath)
  deriving DecidableEq, Repr

/-- The literal segment `data.json`. -/
def dataJsonSeg : Str := "data.json".data

/-- The literal segment `history`. -/
def historySeg : Str := "history".data

/-- The literal segment `msg.signal`. -/
def signalSeg : Str := "msg.signal".data

/-- The current-payload file of an event: `<eventPath>/data.json`. -/
def dataPathOf (root : FsPath) (event : Str) : FsPath :=
  eventToPath root event ++ [dataJsonSeg]

/-- The trace of filesystem operations performed by `messageBus.postMessage`
(lines 69–112 of `messageBus.js`), with the outcomes of the filesystem
*reads* the code performs supplied as parameters:
`hasData` is the result of `fs.existsSync(dataPath)`, `histNames` the result
of `fs.readdirSync(historyPath)` *after* the rename, `timestamp` the
formatted clock reading used for the history file name, and `signalExists`
tells whether `fs.utimesSync` on the signal file succeeds (otherwise the
catch branch creates the file). -/
def postMessageTrace (root : FsPath) (maxHistory : Nat) (hasData : Bool)
    (histNames : List Str) (timestamp : Str) (signalExists : Bool)
    (event : Str) (payloadText : Str) : List FsOp :=
  let eventPath := eventToPath root event
  let dataPath := eventPath ++ [dataJsonSeg]
  let historyPath := eventPath ++ [historySeg]
  let signalPath := eventPath ++ [signalSeg]
  [FsOp.mkdirp eventPath, FsOp.mkdirp historyPath]
  ++ (if hasData then
        -- move old data.json into history, then delete oldest files
        -- (`sort().reverse()` sorts most-recent-first; `pop()` removes the
        -- oldest remaining entry) while the count exceeds maxHistory
        FsOp.rename dataPath (historyPath ++ [timestamp ++ ".json".data]) ::
        (((histNames.insertionSort (fun a b => strLe a b)).reverse.drop
            maxHistory).reverse.map (fun n => FsOp.unlink (historyPath ++ [n])))
      else [])
  ++ [FsOp.writeFile dataPath payloadText]
  ++ [if signalExists then FsOp.utimes signalPath else FsOp.createEmpty signalPath]

example :
    postMessageTrace [['m']] 3 false [] "t1".data true "a:b".data "{}".data =
      [FsOp.mkdirp [['m'], ['a'], ['b']],
       FsOp.mkdirp [['m'], ['a'], ['b'], historySeg],
       FsOp.writeFile [['m'], ['a'], ['b'], dataJsonSeg] "{}".data,
       FsOp.utimes [['m'], ['a'], ['b'], signalSeg]] := by
  decide

/-! ## The event store as a state transformer

A second, per-event view of `messageBus.postMessage` (lines 79–96 of
`messageBus.js`): the entry for one event name consists of the current
payload (the content of `data.json`, absent before the first publish) and
the history directory, a collection of timestamp-named prior payloads.
History file names are ISO timestamps with millisecond precision (with `:`
and `.` replaced), whose lexicographic order coincides with chronological
order; we therefore model a history file name as a numeric timestamp.  The
clock reading of each publish is an explicit parameter, and readings may
repeat: two publishes within the same millisecond produce the same history
file name, and `fs.renameSync` silently *overwrites* an existing file of
that name, losing the older prior payload. -/

/-- The store entry for a single event name: the current payload, if any,
plus the history directory as `(timestamp, payload)` pairs. -/
structure StoreEntry (α : Type) where
  current : Option α
  history : List (Nat × α)
  deriving DecidableEq, Repr

/-- The store entry of an event that has never been published. -/
def StoreEntry.empty (α : Type) : StoreEntry α := ⟨none, []⟩

/-- History trimming in `postMessage`: `readdirSync` lists the history
files, `sort().reverse()` orders them most-recent-first, and the loop
`pop`s (deletes) the oldest remaining file while the count exceeds
`maxHistory` — leaving the most recent `maxHistory` files. -/
def trimHistory (maxHistory : Nat) (files : List (Nat × α)) : List (Nat × α) :=
  (files.insertionSort (fun a b => b.1 ≤ a.1)).take maxHistory

/-- The history directory after `fs.renameSync(dataPath,
historyPath/<t>.json)`: the renamed file *replaces* any existing history
file bearing the same timestamp name (`renameSync` overwrites silently);
otherwise it is simply added to the directory. -/
def renameIntoHistory (t : Nat) (c : α) (files : List (Nat × α)) :
    List (Nat × α) :=
  (t, c) :: files.filter (fun f => f.1 ≠ t)

/-- The effect of one `postMessage` on the store entry of its event, at
clock reading `t`: if a current payload exists it is renamed into the
history directory under the timestamp `t` (overwriting an equal-named
file) and the history is trimmed to `maxHistory`; then the new payload is
written as current.  When no current payload exists the history directory
is left untouched. -/
def writeStore (maxHistory : Nat) (t : Nat) (payload : α) (s : StoreEntry α) :
    StoreEntry α :=
  match s.current with
  | some c =>
      { current := some payload
        history := trimHistory maxHistory (renameIntoHistory t c s.history) }
  | none => { current := some payload, history := s.history }

/-- A sequence of publishes for one event name: each list entry is the
clock reading of that publish paired with the published payload. -/
def runPublishes (maxHistory : Nat) (s : StoreEntry α) :
    List (Nat × α) → StoreEntry α
  | [] => s
  | tp :: ps => runPublishes maxHistory (writeStore maxHistory tp.1 tp.2 s) ps

example :
    runPublishes 3 (StoreEntry.empty Nat) [(0, 10), (1, 20), (2, 30), (3, 40), (4, 50)] =
      { current := some 50, history := [(4, 40), (3, 30), (2, 20)] } := by
  decide

example :
    runPublishes 2 (StoreEntry.empty Nat) [(0, 10)] =
      { current := some 10, history := [] } := by
  decide

/-! ## Message bus fan-out

`messageBus.broadcast` (lines 134–144) loops over the registered listeners
and calls each with `(event, payload)`; a listener that throws is caught
and a line is logged, after which the loop continues with the next
listener.  A listener is modelled as a function that either returns or
throws an error message, and the run of a broadcast is the list of call
records it produces, each noting whether that call threw. -/

/-- One registered bus listener: an identifying index plus its behaviour
(on a given event and payload it either returns or throws a message). -/
structure BusListener (ε π : Type) where
  id : Nat
  fn : ε → π → Except Str Unit

/-- The record of one listener call made during a broadcast. -/
structure CallRecord (ε π : Type) where
  listener : Nat
  event : ε
  payload : π
  threw : Bool
  deriving DecidableEq, Repr

/-- The run of `messageBus.broadcast` over the listener list: each listener
is called inside `try`; on `catch` the error is logged and the loop
continues with the remaining listeners. -/
def broadcastRun : List (BusListener ε π) → ε → π → List (CallRecord ε π)
  | [], _, _ => []
  | l :: rest, event, payload =>
      match l.fn event payload with
      | Except.ok _ =>
          ⟨l.id, event, payload, false⟩ :: broadcastRun rest event payload
      | Except.error _ =>
          ⟨l.id, event, payload, true⟩ :: broadcastRun rest event payload

/-! ## The app SDK: `postMessage` validation

`message.js` lines 45–53: the SDK-side `postMessage` refuses a
non-string or empty event name (logging an error and returning without
sending); otherwise it sends the `{event, payload}` envelope to the host
over the process channel.  In the model the event is always a string, so
only emptiness is checked. -/

/-- The envelope `{event, payload}` sent over a worker channel. -/
structure Envelope (π : Type) where
  event : Str
  payload : π
  deriving DecidableEq, Repr

/-- The SDK-side `postMessage`: `none` when the call is rejected by validation
(nothing is sent), otherwise the envelope handed to `process.send`. -/
def sdkPostMessage (event : Str) (payload : π) : Option (Envelope π) :=
  if event = [] then none else some ⟨event, payload⟩

/-! ## The request/response correlation layer

`getRunningApps` (`message.js` lines 140–168) and `createPanel`
(`ui.js` lines 40–68) follow the same pattern: generate a correlation id,
subscribe to the response event, arm a timeout, publish the request.  The
response callback ignores payloads whose `requestId` differs; on a match it
clears the timeout, unsubscribes, and settles the promise (rejecting when
the payload carries a truthy `error`, resolving otherwise).  When the
timeout fires it unsubscribes and rejects with a timeout error.

The caller's side is modelled as a state machine driven by the events it
can observe: a delivery of a response payload, or the timer firing. -/

/-- JavaScript truthiness of an optional string field (`undefined` and the
empty string are falsy). -/
def jsTruthy (o : Option Str) : Bool :=
  match o with
  | some s => !s.isEmpty
  | none => false

/-- The payload of a `bridge:app:listRunningResponse` message, as read by
the `getRunningApps` callback. -/
structure ListRunningResp where
  requestId : Str
  error : Option Str
  runningApps : Option (List Str)
  deriving DecidableEq, Repr

/-- The payload of a `bridge:ui:createPanelResponse` message, as read by
the `createPanel` callback. -/
structure CreatePanelResp where
  requestId : Str
  error : Option Str
  panelId : Option Str
  deriving DecidableEq, Repr

/-- What a pending request/response call can observe: a response payload
delivered on the subscribed event name, or its timer firing. -/
inductive CallEvent (ρ : Type) where
  | response (p : ρ)
  | fire
  deriving DecidableEq, Repr

deriving instance DecidableEq for Except

/-- The caller-side state of one request/response call: whether its
response subscription is still registered, whether its timeout is still
armed, and the settled outcome of the promise, if any. -/
structure CallState (α : Type) where
  subscribed : Bool
  timerArmed : Bool
  outcome : Option (Except Str α)
  deriving DecidableEq, Repr

/-- The state just after issuing a request: subscribed, timer armed,
promise pending. -/
def CallState.start (α : Type) : CallState α := ⟨true, true, none⟩

/-- The fixed timeout duration of `getRunningApps`, in milliseconds. -/
def getRunningAppsTimeoutMs : Nat := 5000

/-- The rejection message of a timed-out `getRunningApps` call. -/
def getRunningAppsTimeoutMsg : Str :=
  "[Bridge SDK] getRunningApps request timed out.".data

/-- One step of the `getRunningApps` caller: the response callback runs
only while subscribed and ignores other correlation ids; on a match it
clears the timeout, unsubscribes and settles (`payload.error` truthy →
reject, otherwise resolve `payload.runningApps || []`).  The timer, when
still armed, unsubscribes and rejects with the timeout error. -/
def getRunningAppsStep (requestId : Str) (s : CallState (List Str)) :
    CallEvent ListRunningResp → CallState (List Str)
  | CallEvent.response p =>
      if s.subscribed then
        if p.requestId = requestId then
          { subscribed := false, timerArmed := false
            outcome := some (if jsTruthy p.error then
                Except.error ("[Bridge SDK] Host failed to list running apps: ".data
                  ++ p.error.getD [])
              else Except.ok (p.runningApps.getD [])) }
        else s
      else s
  | CallEvent.fire =>
      if s.timerArmed then
        { subscribed := false, timerArmed := false
          outcome := some (Except.error getRunningAppsTimeoutMsg) }
      else s

/-- The `getRunningApps` caller state after a sequence of observations. -/
def runGetRunningApps (requestId : Str) (evs : List (CallEvent ListRunningResp)) :
    CallState (List Str) :=
  evs.foldl (getRunningAppsStep requestId) (CallState.start (List Str))

/-- The fixed timeout duration of `createPanel`, in milliseconds. -/
def createPanelTimeoutMs : Nat := 5000

/-- The rejection message of a timed-out `createPanel` call (the source
interpolates the duration into the message). -/
def createPanelTimeoutMsg : Str :=
  "[Bridge SDK] createPanel request timed out after ".data
    ++ (toString createPanelTimeoutMs).data ++ "ms.".data

/-- One step of the `createPanel` caller; same shape as
`getRunningAppsStep`, resolving with `payload.panelId`. -/
def createPanelStep (requestId : Str) (s : CallState (Option Str)) :
    CallEvent CreatePanelResp → CallState (Option Str)
  | CallEvent.response p =>
      if s.subscribed then
        if p.requestId = requestId then
          { subscribed := false, timerArmed := false
            outcome := some (if jsTruthy p.error then
                Except.error ("[Bridge SDK] Host failed to create panel: ".data
                  ++ p.error.getD [])
              else Except.ok p.panelId) }
        else s
      else s
  | CallEvent.fire =>
      if s.timerArmed then
        { subscribed := false, timerArmed := false
          outcome := some (Except.error createPanelTimeoutMsg) }
      else s

/-- The `createPanel` caller state after a sequence of observations. -/
def runCreatePanel (requestId : Str) (evs : List (CallEvent CreatePanelResp)) :
    CallState (Option Str) :=
  evs.foldl (createPanelStep requestId) (CallState.start (Option Str))

/-! ## The process supervisor

`processManager.js`: worker records live in `activeProcesses`, a `Map`
keyed by PID whose values carry the source path of the worker (the process
handle is represented by the PID itself; killing a worker is modelled as
emitting a terminate signal for that PID).  JavaScript `Map`s iterate in
insertion order, so the map is modelled as an association list. -/

/-- Node's `path.basename`: the final path segment of a POSIX path string. -/
def basename (p : Str) : Str :=
  (p.splitOn '/').getLastD []

example : basename "/ws/.bridge/apps/deploy.js".data = "deploy.js".data := by
  decide

/-- The supervisor state: the `activeProcesses` map as an insertion-ordered
association list from PID to the worker's source path. -/
structure SupState where
  workers : List (Nat × Str)
  deriving DecidableEq, Repr

/-- The function `stopAppByName` (lines 422–434): walk the map entries in iteration
order; at the first worker whose source basename equals `appName`, send it
the terminate signal (`process.kill()`) and return at once — the map itself
is not touched, cleanup being left to the exit handler.  Returns the new
state together with the list of PIDs that were sent the signal. -/
def stopAppByName (appName : Str) (s : SupState) : SupState × List Nat :=
  match s.workers.find? (fun w => basename w.2 = appName) with
  | some w => (s, [w.1])
  | none => (s, [])

/-- The `exit` lifecycle handler (lines 485–490): deletes the exited
worker's record from the map. -/
def onWorkerExit (pid : Nat) (s : SupState) : SupState :=
  ⟨s.workers.filter (fun w => w.1 ≠ pid)⟩

/-- The `error` lifecycle handler (lines 492–497): deletes the failed
worker's record from the map. -/
def onWorkerError (pid : Nat) (s : SupState) : SupState :=
  ⟨s.workers.filter (fun w => w.1 ≠ pid)⟩

/-- The function `handleFileRename`: for each renamed file, the first worker record
whose source path equals the old path has its path updated in place
(`break` stops after the first match); PIDs are never touched. -/
def handleFileRename (renamed : List (Str × Str)) (s : SupState) : SupState :=
  renamed.foldl (fun st file =>
    ⟨updateFirst st.workers file⟩) s
where
  /-- Update the first record matching the old path. -/
  updateFirst : List (Nat × Str) → Str × Str → List (Nat × Str)
    | [], _ => []
    | w :: ws, file =>
        if w.2 = file.1 then (w.1, file.2) :: ws
        else w :: updateFirst ws file

/-- The host-side `getRunningApps` (lines 553–561): the basenames of all live
workers' source paths, in map iteration order. -/
def getRunningAppsHost (s : SupState) : List Str :=
  s.workers.map (fun w => basename w.2)

/-! ## Host response payloads

The host answers request events by publishing response events.  A response
payload is modelled as the ordered field list of the object literal the
source constructs, so that the presence or absence of a named field is
directly observable. -/

/-- A JSON-ish field value appearing in a response payload. -/
inductive JVal where
  | str (s : Str)
  | strList (l : List Str)
  deriving DecidableEq, Repr

/-- A response payload: the ordered fields of the object literal. -/
abbrev RespPayload := List (Str × JVal)

/-- The `bridge:app:listRunningRequest` case of
`processManager.handleMessage` (lines 383–392): when the request payload
carries a truthy `requestId`, publish a `bridge:app:listRunningResponse`
whose payload is the object literal
`{requestId: payload.requestId, runningApps: getRunningApps()}`; otherwise
do nothing.  Returns the `(event, payload)` pair published, if any. -/
def handleListRunningRequest (requestId : Option Str) (s : SupState) :
    Option (Str × RespPayload) :=
  match requestId with
  | some rid =>
      if rid = [] then none
      else some ("bridge:app:listRunningResponse".data,
        [("requestId".data, JVal.str rid),
         ("runningApps".data, JVal.strList (getRunningAppsHost s))])
  | none => none

/-- Renders a segment path as a POSIX path string. -/
def pathToStr (p : FsPath) : Str :=
  ['/'].intercalate p

/-- The service handler `handleReadFileRequest`: with a truthy `requestId` and
`filePath`, try to read the file; on success write the content to the
temp file `<tempDir>/<requestId>-<basename(filePath)>.tmp` and respond
`{requestId, tempFilePath}`, on failure respond `{requestId, error}`.  The
outcome of the actual filesystem read is a parameter.  Returns the
response payload published, if any. -/
def handleReadFileRequest (tempDir : FsPath) (readResult : Except Str Unit)
    (requestId filePath : Option Str) : Option RespPayload :=
  match requestId, filePath with
  | some rid, some fp =>
      if rid = [] ∨ fp = [] then none
      else some (match readResult with
        | Except.ok _ =>
            [("requestId".data, JVal.str rid),
             ("tempFilePath".data,
               JVal.str (pathToStr (tempDir
                 ++ [rid ++ "-".data ++ basename fp ++ ".tmp".data])))]
        | Except.error e =>
            [("requestId".data, JVal.str rid),
             ("error".data, JVal.str ("Failed to read file '".data ++ fp
               ++ "': ".data ++ e))])
  | _, _ => none

/-- The `bridge:ui:createPanelRequest` case of `uiManager.handleMessage`
(lines 100–117): try to create the panel; on success publish a
`bridge:ui:createPanelResponse` of `{requestId, panelId}`, and when
creation throws publish `{requestId, error}` with the raw error message.
The outcome of the panel creation is a parameter; the request id is passed
through verbatim (this handler has no truthiness guard).  Returns the
`(event, payload)` pair published. -/
def handleCreatePanelRequest (createResult : Except Str Str)
    (requestId : Str) : Str × RespPayload :=
  ("bridge:ui:createPanelResponse".data,
   match createResult with
   | Except.ok panelId =>
       [("requestId".data, JVal.str requestId),
        ("panelId".data, JVal.str panelId)]
   | Except.error e =>
       [("requestId".data, JVal.str requestId),
        ("error".data, JVal.str e)])

/-- The service handler `handleGetInfoRequest`: with a truthy `requestId`,
look up the host name and platform and respond
`{requestId, hostname, platform}`; when the lookup throws, respond
`{requestId, error}`.  The outcome of the OS lookup (host name and
platform) is a parameter.  Returns the response payload published, if
any. -/
def handleGetInfoRequest (osResult : Except Str (Str × Str))
    (requestId : Option Str) : Option RespPayload :=
  match requestId with
  | some rid =>
      if rid = [] then none
      else some (match osResult with
        | Except.ok info =>
            [("requestId".data, JVal.str rid),
             ("hostname".data, JVal.str info.1),
             ("platform".data, JVal.str info.2)]
        | Except.error e =>
            [("requestId".data, JVal.str rid),
             ("error".data, JVal.str ("Failed to get OS info: ".data ++ e))])
  | none => none

/-! ## The UI surface registry

`uiManager.js`: surfaces live in `activeInterfaces`, a `Map` from surface
id to a record carrying the surface handle and its kind (`wvv` for static
webview views, `wvp` for dynamic webview panels).  `Map.set` replaces an
existing binding in place and otherwise appends in insertion order. -/

/-- The kind tag of a registered surface. -/
inductive SurfaceKind where
  | wvv
  | wvp
  deriving DecidableEq, Repr

/-- The surface registry, as an insertion-ordered association list. -/
abbrev SurfaceRegistry := List (Str × SurfaceKind)

/-- JavaScript `Map.prototype.set`: replace the value of an existing key in
place, otherwise append the new binding. -/
def mapSet (m : SurfaceRegistry) (k : Str) (v : SurfaceKind) : SurfaceRegistry :=
  if m.any (fun e => e.1 = k) then
    m.map (fun e => if e.1 = k then (k, v) else e)
  else m ++ [(k, v)]

/-- The function `createWebviewPanel` (lines 181–218): the panel id is the string
`wvp:` followed by the clock reading `new Date().getTime()` (milliseconds);
the panel is created, stored in `activeInterfaces` under that id, and the
id is returned.  The clock reading is an explicit parameter. -/
def createWebviewPanel (now : Nat) (reg : SurfaceRegistry) :
    Str × SurfaceRegistry :=
  let panelId := "wvp:".data ++ (toString now).data
  (panelId, mapSet reg panelId SurfaceKind.wvp)

example :
    (createWebviewPanel 1000 []).1 = "wvp:1000".data := by decide

/-- Whether a response payload carries a field of the given name. -/
def hasField (p : RespPayload) (name : Str) : Bool :=
  p.any (fun f => f.1 = name)

/-- The atomic-replace write discipline asserted by the specification for
the current-payload file (stated from the spec's words, for comparison with
the trace the code actually produces): the new payload is first written to
a temporary location distinct from the target and the temporary file is
then renamed onto the target. -/
def writesViaTempThenRename (trace : List FsOp) (target : FsPath)
    (content : Str) : Prop :=
  ∃ tmp, tmp ≠ target ∧ FsOp.writeFile tmp content ∈ trace ∧
    FsOp.rename tmp target ∈ trace

/-- A concrete message root used by the concrete-input theorems:
`/ws/.bridge/message`. -/
def msgRoot0 : FsPath := ["ws".data, ".bridge".data, "message".data]

/-! ## Helper lemmas -/

/-- The function `find?` returns the head of the filtered list. -/
theorem find?_eq_head?_filter (p : α → Bool) (l : List α) :
    l.find? p = (l.filter p).head? := by
  induction l with
  | nil => rfl
  | cons a l ih =>
      cases h : p a
      · rw [List.find?_cons_of_neg _ (by simp [h]), List.filter_cons, if_neg (by simp [h]), ih]
      · rw [List.find?_cons_of_pos _ h, List.filter_cons, if_pos h, List.head?_cons]

/-- In-place path updates preserve the key column of the worker map. -/
theorem updateFirst_map_fst (ws : List (Nat × Str)) (file : Str × Str) :
    (handleFileRename.updateFirst ws file).map Prod.fst = ws.map Prod.fst := by
  induction ws with
  | nil => rfl
  | cons w ws ih =>
      by_cases h : w.2 = file.1 <;> simp [handleFileRename.updateFirst, h, ih]

/-! ## Claim theorems -/

/-- C4: when the bus fans out an event `E` with payload `P` to the `K`
registered subscribers, every subscriber is invoked exactly once with
`(E, P)` — the call records of the broadcast run are exactly one record per
registered listener, in registration order, carrying `(E, P)` — even when
some subscribers throw: a throwing subscriber is caught (its record is
marked, a log line is emitted) and the loop continues with the remaining
subscribers. -/
theorem broadcast_invokes_each_subscriber_once {ε π : Type}
    (ls : List (BusListener ε π)) (event : ε) (payload : π) :
    (broadcastRun ls event payload).map (fun r => (r.listener, r.event, r.payload)) =
      ls.map (fun l => (l.id, event, payload)) := by
  induction ls with
  | nil => rfl
  | cons l rest ih =>
      cases h : l.fn event payload <;> simp [broadcastRun, h, ih]

/-- C10: a stop request by name walks the worker map in iteration order and
sends the terminate signal to exactly the first record whose source
basename matches (so with several same-named live workers only that one is
signalled), leaves the worker map — and hence the other same-named
workers — untouched, and sends no signal at all when no live worker
matches. -/
theorem stopAppByName_signals_first_match (s : SupState) (name : Str) :
    (stopAppByName name s).1 = s ∧
    (stopAppByName name s).2 =
      ((s.workers.filter (fun w => basename w.2 = name)).head?.elim []
        fun w => [w.1]) := by
  unfold stopAppByName
  rw [find?_eq_head?_filter]
  cases h : (s.workers.filter (fun w => basename w.2 = name)).head? <;> simp

/-- C8 counterexample: a worker record is removed by a code path other than
the exit handler — the `error` lifecycle handler deletes the record of the
failed worker (as `deactivate` clears the whole map), so the exit handler
is not the single place that removes worker records. -/
theorem errorHandler_also_removes_record :
    ((onWorkerError 7 ⟨[(7, "/ws/.bridge/apps/deploy.js".data)]⟩).workers = [])
      ∧ ([(7, "/ws/.bridge/apps/deploy.js".data)] : List (Nat × Str)) ≠ [] := by
  decide

/-- C8 amended: stopping a worker only sends a terminate signal and leaves
the worker-record map unchanged (cleanup happens asynchronously, not
synchronously in stop); worker records are removed by the process lifecycle
handlers — the exit handler and equally the error handler — while stop and
rename never delete a record. -/
theorem stop_frame_and_lifecycle_removal (s : SupState) (name : Str)
    (pid : Nat) (renamed : List (Str × Str)) :
    (stopAppByName name s).1.workers = s.workers ∧
    (onWorkerExit pid s).workers = s.workers.filter (fun w => w.1 ≠ pid) ∧
    (onWorkerError pid s).workers = s.workers.filter (fun w => w.1 ≠ pid) ∧
    (handleFileRename renamed s).workers.map Prod.fst = s.workers.map Prod.fst := by
  refine ⟨?_, rfl, rfl, ?_⟩
  · unfold stopAppByName
    cases s.workers.find? (fun w => basename w.2 = name) <;> rfl
  · induction renamed generalizing s with
    | nil => rfl
    | cons file files ih =>
        calc (handleFileRename (file :: files) s).workers.map Prod.fst
            = (handleFileRename files ⟨handleFileRename.updateFirst s.workers file⟩).workers.map Prod.fst := rfl
          _ = (handleFileRename.updateFirst s.workers file).map Prod.fst := ih _
          _ = s.workers.map Prod.fst := updateFirst_map_fst _ _

/-- C9: at the failing input — two panel creations during the same clock
millisecond (both read `Date.getTime() = 1000`) — `createWebviewPanel`
returns the *same* id `wvp:1000` for both calls, and the second
registration overwrites the first, leaving a single registry entry, against
the documented allocation of a fresh unique id per call. -/
theorem createWebviewPanel_same_ms_id_collision :
    ((createWebviewPanel 1000 []).1 =
        (createWebviewPanel 1000 (createWebviewPanel 1000 []).2).1)
      ∧ (createWebviewPanel 1000 (createWebviewPanel 1000 []).2).2.length = 1 := by
  decide

/-- C5 counterexample: the response to a `listRunningRequest` with
correlation id `abc` while no workers are running is
`{requestId: "abc", runningApps: []}` — it carries a `runningApps` field
and neither a `result` field nor an `error` field, so it is not the claimed
`{requestId: "abc", result: []}` and does not carry "either `result` or
`error`". -/
theorem listRunningResponse_has_no_result_field :
    handleListRunningRequest (some "abc".data) ⟨[]⟩ =
      some ("bridge:app:listRunningResponse".data,
        [("requestId".data, JVal.str "abc".data),
         ("runningApps".data, JVal.strList [])])
    ∧ hasField [("requestId".data, JVal.str "abc".data),
        ("runningApps".data, JVal.strList [])] "result".data = false
    ∧ hasField [("requestId".data, JVal.str "abc".data),
        ("runningApps".data, JVal.strList [])] "error".data = false := by
  decide

/-- C5 amended: every response payload includes `requestId` (the
correlation id) and either operation-specific success fields
(`runningApps` for `listRunning`, `tempFilePath` for `readFile`,
`panelId` for `createPanel`, `hostname` and `platform` for `getInfo`) or
an `error` string field — never both; in particular a `listRunningRequest`
with correlation id `abc` issued while no workers are running is answered
with `{requestId: "abc", runningApps: []}`. -/
theorem host_responses_success_xor_error (rid fp e : Str) (s : SupState)
    (tempDir : FsPath) (hrid : rid ≠ []) (hfp : fp ≠ []) :
    handleListRunningRequest (some rid) s =
      some ("bridge:app:listRunningResponse".data,
        [("requestId".data, JVal.str rid),
         ("runningApps".data, JVal.strList (getRunningAppsHost s))])
    ∧ handleReadFileRequest tempDir (Except.ok ()) (some rid) (some fp) =
        some [("requestId".data, JVal.str rid),
          ("tempFilePath".data, JVal.str (pathToStr (tempDir
            ++ [rid ++ "-".data ++ basename fp ++ ".tmp".data])))]
    ∧ handleReadFileRequest tempDir (Except.error e) (some rid) (some fp) =
        some [("requestId".data, JVal.str rid),
          ("error".data, JVal.str ("Failed to read file '".data ++ fp
            ++ "': ".data ++ e))]
    ∧ (∀ tr : Except Str Unit, ∀ p : RespPayload,
        handleReadFileRequest tempDir tr (some rid) (some fp) = some p →
          hasField p "requestId".data = true
          ∧ ((hasField p "tempFilePath".data = true
                ∧ hasField p "error".data = false)
              ∨ (hasField p "tempFilePath".data = false
                ∧ hasField p "error".data = true)))
    ∧ (∀ pid : Str, handleCreatePanelRequest (Except.ok pid) rid =
        ("bridge:ui:createPanelResponse".data,
         [("requestId".data, JVal.str rid), ("panelId".data, JVal.str pid)]))
    ∧ handleCreatePanelRequest (Except.error e) rid =
        ("bridge:ui:createPanelResponse".data,
         [("requestId".data, JVal.str rid), ("error".data, JVal.str e)])
    ∧ (∀ cr : Except Str Str,
        hasField (handleCreatePanelRequest cr rid).2 "requestId".data = true
        ∧ ((hasField (handleCreatePanelRequest cr rid).2 "panelId".data = true
              ∧ hasField (handleCreatePanelRequest cr rid).2 "error".data = false)
            ∨ (hasField (handleCreatePanelRequest cr rid).2 "panelId".data = false
              ∧ hasField (handleCreatePanelRequest cr rid).2 "error".data = true)))
    ∧ (∀ hn pf : Str, handleGetInfoRequest (Except.ok (hn, pf)) (some rid) =
        some [("requestId".data, JVal.str rid),
          ("hostname".data, JVal.str hn), ("platform".data, JVal.str pf)])
    ∧ handleGetInfoRequest (Except.error e) (some rid) =
        some [("requestId".data, JVal.str rid),
          ("error".data, JVal.str ("Failed to get OS info: ".data ++ e))]
    ∧ (∀ osr : Except Str (Str × Str), ∀ p : RespPayload,
        handleGetInfoRequest osr (some rid) = some p →
          hasField p "requestId".data = true
          ∧ ((hasField p "hostname".data = true
                ∧ hasField p "platform".data = true
                ∧ hasField p "error".data = false)
              ∨ (hasField p "hostname".data = false
                ∧ hasField p "platform".data = false
                ∧ hasField p "error".data = true))) := by
  refine ⟨by simp [handleListRunningRequest, hrid],
    ?_, ?_, ?_, ?_, ?_, ?_, ?_, ?_, ?_⟩
  · simp [handleReadFileRequest, hrid, hfp]
  · simp [handleReadFileRequest, hrid, hfp]
  · intro tr p hp
    cases tr <;>
      · simp [handleReadFileRequest, hrid, hfp] at hp
        subst hp
        simp [hasField]
  · intro pid
    rfl
  · rfl
  · intro cr
    cases cr <;> simp [handleCreatePanelRequest, hasField]
  · intro hn pf
    simp [handleGetInfoRequest, hrid]
  · simp [handleGetInfoRequest, hrid]
  · intro osr p hp
    cases osr <;>
      · simp [handleGetInfoRequest, hrid] at hp
        subst hp
        simp [hasField]

/-- C5 witness: the amended response-shape theorem applied at the concrete
correlation id `abc`, file path `/ws/a.txt`, no running workers. -/
theorem host_responses_success_xor_error_witness :
    handleListRunningRequest (some "abc".data) ⟨[]⟩ =
      some ("bridge:app:listRunningResponse".data,
        [("requestId".data, JVal.str "abc".data),
         ("runningApps".data, JVal.strList [])]) := by
  have h := host_responses_success_xor_error "abc".data "/ws/a.txt".data
    "boom".data ⟨[]⟩ ["tmp".data] (by decide) (by decide)
  exact h.1

/-- C3 counterexample: publishing with the *empty* event name still
performs the store write — the trace of `postMessage` for event name `""`
contains the write of `data.json`, placed directly at the message root
(`eventToPath` maps the empty name to the root), so no validation prevented
the store write. -/
theorem postMessage_empty_event_still_writes :
    FsOp.writeFile (msgRoot0 ++ [dataJsonSeg]) "{}".data ∈
      postMessageTrace msgRoot0 3 false [] "ts".data true [] "{}".data
    ∧ eventToPath msgRoot0 [] = msgRoot0 := by
  decide

/-- C3 amended: the bus-level `postMessage` performs no validation of the
event name — for every event name, including the empty and malformed ones,
it delegates to the store write of `data.json` at the path derived from the
name; the only validation in the publish path is in the app SDK's
`postMessage`, which rejects exactly the empty (or non-string) event name
before sending and lets malformed names such as `a::b` through. -/
theorem postMessage_writes_for_every_event_name (root : FsPath) (mh : Nat)
    (hasData : Bool) (hist : List Str) (ts : Str) (sig : Bool)
    (event pl : Str) :
    FsOp.writeFile (dataPathOf root event) pl ∈
      postMessageTrace root mh hasData hist ts sig event pl
    ∧ sdkPostMessage [] pl = none
    ∧ sdkPostMessage "a::b".data pl = some ⟨"a::b".data, pl⟩ := by
  refine ⟨?_, rfl, rfl⟩
  cases hasData <;> cases sig <;>
    simp [postMessageTrace, dataPathOf, eventToPath, pathJoin]

/-- C2 counterexample: publishing `app:deploy` on a store with no previous
payload produces a trace that never writes the payload to a temporary
location and renames it onto `data.json` — the trace contains no rename
targeting the current-payload file at all, so the claimed atomic-replace
discipline does not hold for this publish. -/
theorem postMessage_no_temp_then_rename :
    ¬ writesViaTempThenRename
        (postMessageTrace msgRoot0 3 false [] "ts".data true
          "app:deploy".data "{}".data)
        (dataPathOf msgRoot0 "app:deploy".data) "{}".data := by
  rintro ⟨tmp, hne, hw, hr⟩
  simp [postMessageTrace, dataPathOf, eventToPath, pathJoin] at hr

/-- C2 amended: publishing writes the new payload *directly* to the
current-payload file `data.json` in a single write — the trace contains the
direct write, contains no rename onto the current-payload file, its only
payload write is that direct one, and the signal file is only touched after
the payload write has been issued (so filesystem watchers are notified
after the write, but a concurrent reader of `data.json` is not protected by
a temporary-file atomic replace). -/
theorem postMessage_writes_payload_directly (root : FsPath) (mh : Nat)
    (hasData : Bool) (hist : List Str) (ts : Str) (sig : Bool)
    (event pl : Str) :
    FsOp.writeFile (dataPathOf root event) pl ∈
      postMessageTrace root mh hasData hist ts sig event pl
    ∧ (∀ src, FsOp.rename src (dataPathOf root event) ∉
        postMessageTrace root mh hasData hist ts sig event pl)
    ∧ (∀ p c, FsOp.writeFile p c ∈
        postMessageTrace root mh hasData hist ts sig event pl →
          p = dataPathOf root event ∧ c = pl)
    ∧ (∃ pre, postMessageTrace root mh hasData hist ts sig event pl =
        pre ++ [FsOp.writeFile (dataPathOf root event) pl,
          if sig then FsOp.utimes (eventToPath root event ++ [signalSeg])
          else FsOp.createEmpty (eventToPath root event ++ [signalSeg])]) := by
  refine ⟨?_, ?_, ?_, ?_⟩
  · cases hasData <;> cases sig <;>
      simp [postMessageTrace, dataPathOf, eventToPath, pathJoin]
  · intro src hr
    cases hasData <;> cases sig <;>
      simp [postMessageTrace, dataPathOf, eventToPath, pathJoin] at hr <;>
      · have h2 := List.mem_of_mem_drop hr
        rw [List.mem_reverse] at h2
        rcases List.mem_map.mp h2 with ⟨n, hn, he⟩
        simp at he
  · intro p c hw
    cases hasData <;> cases sig <;>
      simp [postMessageTrace, dataPathOf, eventToPath, pathJoin] at hw
    case false.false =>
      exact ⟨by simpa [dataPathOf, eventToPath, pathJoin] using hw.1, hw.2⟩
    case false.true =>
      exact ⟨by simpa [dataPathOf, eventToPath, pathJoin] using hw.1, hw.2⟩
    all_goals
      rcases hw with h | h
      · have h2 := List.mem_of_mem_drop h
        rw [List.mem_reverse] at h2
        rcases List.mem_map.mp h2 with ⟨n, hn, he⟩
        simp at he
      · exact ⟨by simpa [dataPathOf, eventToPath, pathJoin] using h.1, h.2⟩
  · refine ⟨[FsOp.mkdirp (eventToPath root event),
      FsOp.mkdirp (eventToPath root event ++ [historySeg])]
      ++ (if hasData then
            FsOp.rename (eventToPath root event ++ [dataJsonSeg])
              (eventToPath root event ++ [historySeg]
                ++ [ts ++ ".json".data]) ::
            (((hist.insertionSort (fun a b => strLe a b)).reverse.drop
                mh).reverse.map (fun n => FsOp.unlink
                  (eventToPath root event ++ [historySeg] ++ [n])))
          else []), ?_⟩
    cases hasData <;> cases sig <;>
      simp [postMessageTrace, dataPathOf, eventToPath, pathJoin]

/-- Before the timer fires, a `getRunningApps` call that has seen only
responses with other correlation ids is still in its initial state. -/
theorem runGetRunningApps_pending (rid : Str)
    (evs : List (CallEvent ListRunningResp))
    (hmiss : ∀ p, CallEvent.response p ∈ evs → p.requestId ≠ rid)
    (hnofire : CallEvent.fire ∉ evs) :
    runGetRunningApps rid evs = CallState.start (List Str) := by
  induction evs with
  | nil => rfl
  | cons e evs ih =>
      have hstep : getRunningAppsStep rid (CallState.start (List Str)) e
          = CallState.start (List Str) := by
        cases e with
        | response p =>
            have := hmiss p (by simp)
            simp [getRunningAppsStep, CallState.start, this]
        | fire => exact absurd (by simp) hnofire
      calc runGetRunningApps rid (e :: evs)
          = evs.foldl (getRunningAppsStep rid)
              (getRunningAppsStep rid (CallState.start (List Str)) e) := rfl
        _ = runGetRunningApps rid evs := by rw [hstep]; rfl
        _ = CallState.start (List Str) :=
            ih (fun p hp => hmiss p (by simp [hp])) (fun hf => hnofire (by simp [hf]))

/-- Before the timer fires, a `createPanel` call that has seen only
responses with other correlation ids is still in its initial state. -/
theorem runCreatePanel_pending (rid : Str)
    (evs : List (CallEvent CreatePanelResp))
    (hmiss : ∀ p, CallEvent.response p ∈ evs → p.requestId ≠ rid)
    (hnofire : CallEvent.fire ∉ evs) :
    runCreatePanel rid evs = CallState.start (Option Str) := by
  induction evs with
  | nil => rfl
  | cons e evs ih =>
      have hstep : createPanelStep rid (CallState.start (Option Str)) e
          = CallState.start (Option Str) := by
        cases e with
        | response p =>
            have := hmiss p (by simp)
            simp [createPanelStep, CallState.start, this]
        | fire => exact absurd (by simp) hnofire
      calc runCreatePanel rid (e :: evs)
          = evs.foldl (createPanelStep rid)
              (createPanelStep rid (CallState.start (Option Str)) e) := rfl
        _ = runCreatePanel rid evs := by rw [hstep]; rfl
        _ = CallState.start (Option Str) :=
            ih (fun p hp => hmiss p (by simp [hp])) (fun hf => hnofire (by simp [hf]))

/-- C6: a request/response call (`getRunningApps`, `createPanel`) whose
matching response never arrives — every response observed before the timer
fires carries a different correlation id — rejects with the timeout error
when the timer fires after the fixed configured duration (5000 ms for both
calls), and at that point the response subscription has been removed, so no
active subscription for the correlation id remains. -/
theorem request_timeout_rejects_and_unsubscribes (rid : Str)
    (evsG : List (CallEvent ListRunningResp))
    (evsP : List (CallEvent CreatePanelResp))
    (hG : ∀ p, CallEvent.response p ∈ evsG → p.requestId ≠ rid)
    (hGf : CallEvent.fire ∉ evsG)
    (hP : ∀ p, CallEvent.response p ∈ evsP → p.requestId ≠ rid)
    (hPf : CallEvent.fire ∉ evsP) :
    (runGetRunningApps rid (evsG ++ [CallEvent.fire])).outcome
        = some (Except.error getRunningAppsTimeoutMsg)
    ∧ (runGetRunningApps rid (evsG ++ [CallEvent.fire])).subscribed = false
    ∧ (runCreatePanel rid (evsP ++ [CallEvent.fire])).outcome
        = some (Except.error createPanelTimeoutMsg)
    ∧ (runCreatePanel rid (evsP ++ [CallEvent.fire])).subscribed = false
    ∧ getRunningAppsTimeoutMs = 5000 ∧ createPanelTimeoutMs = 5000 := by
  have hGrun : runGetRunningApps rid (evsG ++ [CallEvent.fire])
      = getRunningAppsStep rid (runGetRunningApps rid evsG) CallEvent.fire := by
    unfold runGetRunningApps
    rw [List.foldl_append]
    rfl
  have hPrun : runCreatePanel rid (evsP ++ [CallEvent.fire])
      = createPanelStep rid (runCreatePanel rid evsP) CallEvent.fire := by
    unfold runCreatePanel
    rw [List.foldl_append]
    rfl
  rw [hGrun, hPrun, runGetRunningApps_pending rid evsG hG hGf,
    runCreatePanel_pending rid evsP hP hPf]
  exact ⟨rfl, rfl, rfl, rfl, rfl, rfl⟩

/-- C6 witness: the timeout theorem applied to concrete calls with
correlation id `abc` that observe one response for a different correlation
id `zzz` and then their timer firing. -/
theorem request_timeout_rejects_and_unsubscribes_witness :
    (runGetRunningApps "abc".data
        ([CallEvent.response ⟨"zzz".data, none, some []⟩] ++ [CallEvent.fire])).outcome
      = some (Except.error getRunningAppsTimeoutMsg)
    ∧ (runCreatePanel "abc".data
        ([CallEvent.response ⟨"zzz".data, none, none⟩] ++ [CallEvent.fire])).subscribed
      = false := by
  have h := request_timeout_rejects_and_unsubscribes "abc".data
    [CallEvent.response ⟨"zzz".data, none, some []⟩]
    [CallEvent.response ⟨"zzz".data, none, none⟩]
    (by intro p hp; simp at hp; subst hp; decide)
    (by decide)
    (by intro p hp; simp at hp; subst hp; decide)
    (by decide)
  exact ⟨h.1, h.2.2.2.1⟩

/-- C7: the event-name/location mapping is deterministic and invertible —
for every well-formed event name (non-empty colon-separated segments, none
containing the delimiter or the path separator), converting the name to its
directory and then converting the signal-file path in that directory back
yields the original name: `pathToEvent` is a left inverse of
`eventToPath`. -/
theorem pathToEvent_leftInverse_eventToPath (root : FsPath) (event : Str)
    (hseg : ∀ seg ∈ event.splitOn ':', seg ≠ [] ∧ '/' ∉ seg) :
    pathToEvent root (eventToPath root event ++ [signalSeg]) = event := by
  have hne : event.splitOn ':' ≠ [] := by
    simpa [List.splitOn] using
      List.splitOnP_ne_nil (p := fun c => c == ':') event
  have hfilter : (event.splitOn ':').filter (fun s => s ≠ []) = event.splitOn ':' :=
    List.filter_eq_self.mpr (fun a ha => by simpa using (hseg a ha).1)
  have hlen : 1 < (event.splitOn ':' ++ [signalSeg]).length := by
    have := List.length_pos.mpr hne
    simp only [List.length_append, List.length_singleton]
    omega
  unfold pathToEvent eventToPath pathJoin
  rw [hfilter, List.append_assoc, List.drop_left, if_neg (by omega),
    List.dropLast_concat]
  exact List.intercalate_splitOn event ':'

/-- C7 witness: the round trip applied at the concrete well-formed event
name `app:deploy:start` under the concrete message root. -/
theorem pathToEvent_leftInverse_eventToPath_witness :
    pathToEvent msgRoot0 (eventToPath msgRoot0 "app:deploy:start".data ++ [signalSeg])
      = "app:deploy:start".data :=
  pathToEvent_leftInverse_eventToPath msgRoot0 "app:deploy:start".data (by decide)

/-- Renaming into a history that holds no equal-named file is a plain
addition: when every stored timestamp is strictly below the incoming one,
no file is overwritten. -/
theorem renameIntoHistory_fresh (t : Nat) (c : α) (h : List (Nat × α))
    (hb : ∀ x ∈ h, x.1 < t) :
    renameIntoHistory t c h = (t, c) :: h := by
  unfold renameIntoHistory
  congr 1
  rw [List.filter_eq_self]
  intro a ha
  simpa using Nat.ne_of_lt (hb a ha)

/-- Sorting an already most-recent-first history is the identity: when the
incoming file's timestamp exceeds every stored timestamp and the stored
history is strictly descending, the sort in the trim step leaves the list
as it is, so trimming is plain truncation. -/
theorem trimHistory_sorted_cons (cap t : Nat) (c : α) (h : List (Nat × α))
    (hs : h.Pairwise (fun a b => b.1 < a.1)) (hb : ∀ x ∈ h, x.1 < t) :
    trimHistory cap ((t, c) :: h) = ((t, c) :: h).take cap := by
  unfold trimHistory
  congr 1
  apply List.Sorted.insertionSort_eq
  refine List.Pairwise.cons (fun x hx => le_of_lt (hb x hx)) ?_
  exact hs.imp (fun hab => le_of_lt hab)

/-- Truncating keeps the history strictly descending and bounded by the
newest timestamp. -/
theorem take_cons_pairwise_lt (cap t : Nat) (c : α) (h : List (Nat × α))
    (hs : h.Pairwise (fun a b => b.1 < a.1)) (hb : ∀ x ∈ h, x.1 < t) :
    (((t, c) :: h).take cap).Pairwise (fun a b => b.1 < a.1)
      ∧ ∀ x ∈ ((t, c) :: h).take cap, x.1 ≤ t := by
  constructor
  · exact List.Pairwise.sublist (List.take_sublist cap _) (List.Pairwise.cons hb hs)
  · intro x hx
    have hx2 := List.mem_of_mem_take hx
    rcases List.mem_cons.mp hx2 with h1 | h2
    · rw [h1]
    · have := hb x h2
      omega

/-- Nested truncation collapses: truncating a list whose tail beyond a cons
was already truncated to the cap gives the same result as truncating the
untruncated list. -/
theorem take_append_cons_take (n : Nat) (A : List β) (b : β) (B : List β) :
    (A ++ b :: B.take n).take n = (A ++ b :: B).take n := by
  rw [List.take_append_eq_append_take, List.take_append_eq_append_take]
  congr 1
  have haux : ∀ m, m ≤ n → List.take m (b :: B.take n) = List.take m (b :: B) := by
    intro m hm
    cases m with
    | zero => simp
    | succ k =>
        simp only [List.take_succ_cons, List.take_take]
        have hmin : k ⊓ n = k := by omega
        rw [hmin]
  exact haux _ (Nat.sub_le n A.length)

/-- The main induction for the history bound: starting from a store entry
that already has a current payload `c` and a well-formed history (strictly
descending timestamps, all below the next clock reading), a publish
sequence with strictly increasing clock readings leaves the last payload
current and the history equal to the previous payloads, most-recent-first,
truncated to the cap. -/
theorem runPublishes_from_some (cap : Nat) (ps : List (Nat × α)) :
    ∀ (tp : Nat × α) (c : α) (h : List (Nat × α)),
      h.Pairwise (fun a b => b.1 < a.1) → (∀ x ∈ h, x.1 < tp.1) →
      ((tp :: ps).map Prod.fst).Pairwise (fun a b => a < b) →
      (runPublishes cap ⟨some c, h⟩ (tp :: ps)).current
          = some ((tp :: ps).getLast (by simp)).2 ∧
      (runPublishes cap ⟨some c, h⟩ (tp :: ps)).history.map Prod.snd
          = (((tp :: ps).map Prod.snd).dropLast.reverse ++ c :: h.map Prod.snd).take cap := by
  induction ps with
  | nil =>
      intro tp c h hs hb _
      have hw : runPublishes cap ⟨some c, h⟩ [tp]
          = ⟨some tp.2, trimHistory cap (renameIntoHistory tp.1 c h)⟩ := rfl
      rw [hw, renameIntoHistory_fresh tp.1 c h hb,
        trimHistory_sorted_cons cap tp.1 c h hs hb]
      refine ⟨rfl, ?_⟩
      simp [List.map_take]
  | cons q ps ih =>
      intro tp c h hs hb hmono
      simp only [List.map_cons] at hmono
      have htq : tp.1 < q.1 := (List.pairwise_cons.mp hmono).1 q.1 (by simp)
      have hmono2 : ((q :: ps).map Prod.fst).Pairwise (fun a b => a < b) := by
        simp only [List.map_cons]
        exact (List.pairwise_cons.mp hmono).2
      have hw : runPublishes cap ⟨some c, h⟩ (tp :: q :: ps)
          = runPublishes cap
              ⟨some tp.2, trimHistory cap (renameIntoHistory tp.1 c h)⟩ (q :: ps) := rfl
      rw [hw, renameIntoHistory_fresh tp.1 c h hb,
        trimHistory_sorted_cons cap tp.1 c h hs hb]
      have hwf := take_cons_pairwise_lt cap tp.1 c h hs hb
      have hbound : ∀ x ∈ ((tp.1, c) :: h).take cap, x.1 < q.1 :=
        fun x hx => lt_of_le_of_lt (hwf.2 x hx) htq
      have hih := ih q tp.2 (((tp.1, c) :: h).take cap) hwf.1 hbound hmono2
      refine ⟨hih.1.trans
        (congrArg (fun y : Nat × α => some y.2) (List.getLast_cons (by simp))).symm, ?_⟩
      rw [hih.2]
      have hmap : ((((tp.1, c) :: h).take cap).map Prod.snd)
          = (c :: h.map Prod.snd).take cap := by
        simp [List.map_take]
      rw [hmap]
      have hshape : ((tp :: q :: ps).map Prod.snd).dropLast.reverse
          = ((q :: ps).map Prod.snd).dropLast.reverse ++ [tp.2] := by
        simp only [List.map_cons]
        rw [List.dropLast_cons₂, List.reverse_cons]
      rw [hshape, List.append_assoc, List.singleton_append]
      exact take_append_cons_take cap _ tp.2 _

/-- C1 counterexample: two publishes of the same event within one clock
millisecond reuse the same history file name, and the rename into history
overwrites the equal-named file, losing a prior payload: publishing the
payloads 10, 20, 30 at clock readings 0, 1, 1 with cap 3 retains only the
prior payload 20 — not the most recent cap-many prior payloads `[20, 10]`
the claim requires for this sequence of publishes. -/
theorem same_ms_publishes_lose_history :
    (runPublishes 3 (StoreEntry.empty Nat)
        [(0, 10), (1, 20), (1, 30)]).history.map Prod.snd = [20]
    ∧ (runPublishes 3 (StoreEntry.empty Nat)
        [(0, 10), (1, 20), (1, 30)]).history.map Prod.snd
        ≠ ((([10, 20, 30] : List Nat).dropLast.reverse).take 3) := by
  decide

/-- C1 amended: for every event name and every nonempty sequence of
publishes *made at pairwise distinct, strictly increasing clock
milliseconds* (so that no two history file names collide), the store write
moves the existing current payload into history and trims by deleting the
oldest entries beyond the cap: after the publishes the last payload is
current, the retained history consists of exactly the most recent cap-many
*prior* payloads in most-recent-first order (hence never exceeds the
configured cap), and after the first publish of an event the history is
empty.  (Without the distinct-millisecond proviso, same-millisecond
publishes overwrite an equal-named history file and lose a prior
payload.) -/
theorem history_bound_and_content (cap : Nat) (ps : List (Nat × α))
    (hne : ps ≠ [])
    (hmono : (ps.map Prod.fst).Pairwise (fun a b => a < b)) :
    (runPublishes cap (StoreEntry.empty α) ps).current = some (ps.getLast hne).2
    ∧ (runPublishes cap (StoreEntry.empty α) ps).history.map Prod.snd
        = ((ps.map Prod.snd).dropLast.reverse).take cap
    ∧ (runPublishes cap (StoreEntry.empty α) ps).history.length ≤ cap
    ∧ (∀ tp0 : Nat × α, ps = [tp0] →
        (runPublishes cap (StoreEntry.empty α) ps).history = []) := by
  have hlen : ∀ s : StoreEntry α,
      s.history.map Prod.snd = ((ps.map Prod.snd).dropLast.reverse).take cap →
      s.history.length ≤ cap := by
    intro s hmap
    have := congrArg List.length hmap
    rw [List.length_map] at this
    rw [this]
    exact (List.length_take_le cap _).trans le_rfl
  cases ps with
  | nil => exact absurd rfl hne
  | cons tp rest =>
      cases rest with
      | nil =>
          refine ⟨rfl, by simp [runPublishes, writeStore, StoreEntry.empty],
            by simp [runPublishes, writeStore, StoreEntry.empty], fun tp0 _ => rfl⟩
      | cons q rest2 =>
          have h0 : runPublishes cap (StoreEntry.empty α) (tp :: q :: rest2)
              = runPublishes cap ⟨some tp.2, []⟩ (q :: rest2) := rfl
          have hmono2 : ((q :: rest2).map Prod.fst).Pairwise (fun a b => a < b) := by
            simp only [List.map_cons] at hmono ⊢
            exact (List.pairwise_cons.mp hmono).2
          have hmain := runPublishes_from_some cap rest2 q tp.2 []
            (by simp) (by simp) hmono2
          constructor
          · rw [h0]
            exact hmain.1.trans
              (congrArg (fun y : Nat × α => some y.2) (List.getLast_cons (by simp))).symm
          · have hhist : (runPublishes cap (StoreEntry.empty α)
                (tp :: q :: rest2)).history.map Prod.snd
                = (((tp :: q :: rest2).map Prod.snd).dropLast.reverse).take cap := by
              rw [h0, hmain.2]
              simp only [List.map_cons]
              rw [List.dropLast_cons₂, List.reverse_cons]
              simp
            refine ⟨hhist, hlen _ hhist, ?_⟩
            intro tp0 htp0
            exact absurd htp0 (by simp)

/-- C1 witness: four publishes at distinct clock readings with cap 2 — the
last payload is current, the history holds exactly the two most recent
prior payloads, most-recent-first, within the cap. -/
theorem history_bound_and_content_witness :
    (runPublishes 2 (StoreEntry.empty Nat)
        [(0, 10), (1, 20), (2, 30), (3, 40)]).current = some 40
    ∧ (runPublishes 2 (StoreEntry.empty Nat)
        [(0, 10), (1, 20), (2, 30), (3, 40)]).history.map Prod.snd = [30, 20]
    ∧ (runPublishes 2 (StoreEntry.empty Nat)
        [(0, 10), (1, 20), (2, 30), (3, 40)]).history.length ≤ 2 := by
  have h := history_bound_and_content 2 [(0, 10), (1, 20), (2, 30), (3, 40)]
    (by decide) (by decide)
  exact ⟨by simpa using h.1, by simpa using h.2.1, h.2.2.1⟩
